import Mathlib

/-!
Verification of the dnsalt domain-permutation engine (src/dnsalt.py).

Strings are modelled as `List Char`; Python `ord`/`chr` are `Char.toNat` /
`Char.ofNat`; Python slices `s[:i]` / `s[i:]` are `List.take i` / `List.drop i`
(total, as in Python); raw indexing `s[i]` (which raises `IndexError` when out
of range) is modelled by `List.get?` inside the `Option` monad, so an
out-of-range access makes the whole algorithm return `none`.  Algorithms whose
Python body indexes only through `enumerate` and slices are total and are
modelled as plain functions.  DNS resolution is modelled by an outcome oracle:
the one blocking call `socket.gethostbyname_ex` either returns an address list
or raises one of the three caught exception classes.
-/

/-- Decomposition state built by `dnsalt.__init__`: the original domain, the
label part `name` before the last dot and the suffix `tld` after it. -/
structure dnsalt where
  original_domain : List Char
  name : List Char
  tld : List Char
deriving Repr, DecidableEq

/-- Python `domain.rsplit('.', 1)` restricted to the two-way case: splits at
the last `'.'`, returning `none` when the string has no dot (the branch the
source guards with `'.' in domain`). -/
def rsplitDot : List Char → Option (List Char × List Char)
  | [] => none
  | c :: cs =>
    match rsplitDot cs with
    | some (n, t) => some (c :: n, t)
    | none => if c = '.' then some ([], cs) else none

/-- Constructor `dnsalt.__init__` (src/dnsalt.py lines 39-50): split on the
last dot; when the input has no dot, `name` is the whole input and `tld` is
the literal `"com"`. -/
def mkDnsalt (domain : List Char) : dnsalt :=
  match rsplitDot domain with
  | some (n, t) => ⟨domain, n, t⟩
  | none => ⟨domain, domain, ['c', 'o', 'm']⟩

lemma rsplitDot_eq_none_iff (d : List Char) :
    rsplitDot d = none ↔ '.' ∉ d := by
  induction d with
  | nil => simp [rsplitDot]
  | cons c cs ih =>
    rw [rsplitDot]
    cases hcs : rsplitDot cs with
    | some p =>
      obtain ⟨n', t'⟩ := p
      have hmem : '.' ∈ cs := by
        by_contra hnot
        rw [← ih] at hnot
        rw [hcs] at hnot
        cases hnot
      simp [List.mem_cons, hmem]
    | none =>
      have hnotin : '.' ∉ cs := ih.mp hcs
      by_cases hc : c = '.'
      · subst hc; simp
      · have hne : ('.' : Char) ≠ c := fun h => hc h.symm
        simp [hc, List.mem_cons, hnotin, hne]

lemma rsplitDot_append (d n t : List Char) (h : rsplitDot d = some (n, t)) :
    n ++ '.' :: t = d := by
  induction d generalizing n t with
  | nil => simp [rsplitDot] at h
  | cons c cs ih =>
    rw [rsplitDot] at h
    cases hcs : rsplitDot cs with
    | some p =>
      obtain ⟨n', t'⟩ := p
      rw [hcs] at h
      simp only [Option.some.injEq, Prod.mk.injEq] at h
      obtain ⟨h1, h2⟩ := h
      subst h1; subst h2
      have := ih n' t' hcs
      simpa using this
    | none =>
      rw [hcs] at h
      by_cases hc : c = '.'
      · subst hc
        rw [if_pos rfl] at h
        cases h
        rfl
      · simp [hc] at h

/-- Running example: the input domain string `"example.com"`. -/
def exampleCom : List Char := ['e', 'x', 'a', 'm', 'p', 'l', 'e', '.', 'c', 'o', 'm']

/-- C3: construction splits on the last dot, and for inputs containing a dot
the decomposition satisfies `name ++ "." ++ tld = domain`; for inputs without
a dot, `name` is the whole input and `tld` is the literal `"com"`. -/
theorem mkDnsalt_decomposes (d : List Char) :
    ('.' ∈ d → (mkDnsalt d).name ++ '.' :: (mkDnsalt d).tld = d) ∧
    ('.' ∉ d → (mkDnsalt d).name = d ∧ (mkDnsalt d).tld = ['c', 'o', 'm']) := by
  refine ⟨fun hdot => ?_, fun hnot => ?_⟩
  · rcases h : rsplitDot d with _ | ⟨n, t⟩
    · exact absurd hdot ((rsplitDot_eq_none_iff d).mp h)
    · simp only [mkDnsalt, h]
      exact rsplitDot_append d n t h
  · have h := (rsplitDot_eq_none_iff d).mpr hnot
    simp [mkDnsalt, h]

/-- Witness for C3 at the concrete input `"example.com"`. -/
theorem mkDnsalt_decomposes_witness :
    (mkDnsalt exampleCom).name ++ '.' :: (mkDnsalt exampleCom).tld = exampleCom :=
  (mkDnsalt_decomposes exampleCom).1 (by decide)

/-- Per-candidate resolution record built by `check_domain_resolution`
(src/dnsalt.py lines 380-385): `domain`, `resolves`, `ip_addresses`, `error`. -/
structure ResolutionVerdict where
  domain : List Char
  resolves : Bool
  ip_addresses : List (List Char)
  error : Option (List Char)
deriving Repr, DecidableEq

/-- Outcome of the one blocking call `socket.gethostbyname_ex(domain)[2]`
inside the `try` block (src/dnsalt.py lines 387-392): it either returns a
list of addresses or raises one of the three exception classes the source
catches (`socket.gaierror`, `socket.timeout`, any other `Exception`, the
last also covering a failing `socket.setdefaulttimeout`). -/
inductive ResolveOutcome where
  | success (ips : List (List Char))
  | gaierror (msg : List Char)
  | timeout
  | other (msg : List Char)
deriving Repr, DecidableEq

/-- Static method `dnsalt.check_domain_resolution` (src/dnsalt.py lines
370-406), parameterized by the outcome of the blocking resolution call: the
`result` dict starts as `{domain, resolves: False, ip_addresses: [], error:
None}` and is updated by the `try`/`except` arms. -/
def check_domain_resolution (domain : List Char) (outcome : ResolveOutcome) :
    ResolutionVerdict :=
  match outcome with
  | .success ips =>
    if ips ≠ [] then ⟨domain, true, ips, none⟩
    else ⟨domain, false, [], none⟩
  | .gaierror msg => ⟨domain, false, [], some msg⟩
  | .timeout => ⟨domain, false, [], some "Timeout".toList⟩
  | .other msg => ⟨domain, false, [], some ("Error: ".toList ++ msg)⟩

/-- C2: the single-candidate check is a total function of the resolution
outcome (so no exception escapes it), and each failure class is captured in
the verdict: a resolver error (`socket.gaierror`) yields `resolves = false`
with the resolver message, a timeout yields `resolves = false` with the
literal error string `"Timeout"`, and any other exception yields
`resolves = false` with a generic `"Error: ..."` description. -/
theorem check_domain_resolution_error_cases (d : List Char) :
    (∀ msg, (check_domain_resolution d (.gaierror msg)).resolves = false ∧
      (check_domain_resolution d (.gaierror msg)).error = some msg) ∧
    ((check_domain_resolution d .timeout).resolves = false ∧
      (check_domain_resolution d .timeout).error = some "Timeout".toList) ∧
    (∀ msg, (check_domain_resolution d (.other msg)).resolves = false ∧
      (check_domain_resolution d (.other msg)).error =
        some ("Error: ".toList ++ msg)) :=
  ⟨fun _ => ⟨rfl, rfl⟩, ⟨rfl, rfl⟩, fun _ => ⟨rfl, rfl⟩⟩

/-- C4: every verdict satisfies the classification invariant:
`resolves = true` iff `ip_addresses` is non-empty; `resolves = true` implies
`error = none`; `resolves = false` implies `ip_addresses = []`. -/
theorem check_domain_resolution_classification (d : List Char)
    (o : ResolveOutcome) :
    ((check_domain_resolution d o).resolves = true ↔
      (check_domain_resolution d o).ip_addresses ≠ []) ∧
    ((check_domain_resolution d o).resolves = true →
      (check_domain_resolution d o).error = none) ∧
    ((check_domain_resolution d o).resolves = false →
      (check_domain_resolution d o).ip_addresses = []) := by
  cases o with
  | success ips =>
    by_cases h : ips = []
    · subst h; simp [check_domain_resolution]
    · simp [check_domain_resolution, h]
  | gaierror msg => simp [check_domain_resolution]
  | timeout => simp [check_domain_resolution]
  | other msg => simp [check_domain_resolution]

/-- Witness for C4 at a concrete successful resolution of `"example.com"`. -/
theorem check_domain_resolution_classification_witness :
    (check_domain_resolution exampleCom
      (.success [['1', '2', '7', '.', '0', '.', '0', '.', '1']])).error = none :=
  (check_domain_resolution_classification exampleCom
    (.success [['1', '2', '7', '.', '0', '.', '0', '.', '1']])).2.1 (by decide)

/-- Names bound at module level in src/dnsalt.py: the imports bind `List`,
`Dict`, `argparse`, `socket`, `concurrent`, `datetime`; the module body binds
`VERSION`, the class `dnsalt`, and the functions `check_domains_bulk`,
`main`, `super_cool_banner`.  The name `DomainPermutator`, referenced at
lines 434 and 552, is bound nowhere in the module. -/
def moduleGlobals : List String :=
  ["List", "Dict", "argparse", "socket", "concurrent", "datetime",
   "VERSION", "dnsalt", "check_domains_bulk", "main", "super_cool_banner"]

/-- Function `check_domains_bulk` (src/dnsalt.py lines 409-464).  Submitting
a candidate (line 433-436) evaluates the free name `DomainPermutator` in the
module globals, which raises `NameError` when the lookup fails; the verbose
summary (line 461) computes `resolved_count/total*100`, which raises
`ZeroDivisionError` when `total = 0`.  Worker completion order only permutes
`results`; with the failing name lookup no submission ever succeeds, so the
order is irrelevant and submission order is used. -/
def check_domains_bulk (domains : List (List Char))
    (resolver : List Char → ResolveOutcome) (verbose : Bool) :
    Except String (List ResolutionVerdict) := do
  let results ← domains.mapM (fun d =>
    if "DomainPermutator" ∈ moduleGlobals then
      Except.ok (check_domain_resolution d (resolver d))
    else
      Except.error "NameError: name DomainPermutator is not defined")
  if verbose ∧ domains.length = 0 then
    Except.error "ZeroDivisionError: division by zero"
  else
    pure results

/-- C1 (code bug): `check_domains_bulk` never returns a verdict list for a
non-empty candidate list — evaluating the free name `DomainPermutator` at
line 434 raises `NameError` because the class is named `dnsalt` — and for an
empty candidate list with the default `verbose=True` the summary at line 461
divides by `total = 0`. -/
theorem check_domains_bulk_raises :
    (∀ (domains : List (List Char)) (resolver : List Char → ResolveOutcome)
        (verbose : Bool), domains ≠ [] →
        check_domains_bulk domains resolver verbose =
          Except.error "NameError: name DomainPermutator is not defined") ∧
    (∀ resolver, check_domains_bulk [] resolver true =
        Except.error "ZeroDivisionError: division by zero") := by
  constructor
  · rintro (_ | ⟨d, ds⟩) resolver verbose h
    · exact absurd rfl h
    · rfl
  · intro resolver
    rfl

/-- Witness for C1 at the concrete candidate list `["example.com"]`. -/
theorem check_domains_bulk_raises_witness :
    check_domains_bulk [exampleCom] (fun _ => ResolveOutcome.timeout) true =
      Except.error "NameError: name DomainPermutator is not defined" :=
  check_domains_bulk_raises.1 [exampleCom] (fun _ => ResolveOutcome.timeout)
    true (by decide)

/-- Python f-string `f"{new_name}.{self.tld}"`: the mutated name followed by
a dot and the suffix. -/
def dotted (nm tld : List Char) : List Char := nm ++ ['.'] ++ tld

/-- Class attribute `HOMOGLYPHS` (src/dnsalt.py lines 53-80): visually
similar substitutes per lowercase letter. -/
def HOMOGLYPHS : List (Char × List Char) := [
  ('a', ['à', 'á', 'â', 'ã', 'ä', 'å', 'ɑ', 'а', 'ạ', 'ǎ', 'ă', 'ȧ', 'ӓ']),
  ('b', ['d', 'ʙ', 'Ь', 'ɓ', 'ḃ', 'ḅ', 'ḇ', 'ƅ']),
  ('c', ['ϲ', 'с', 'ƈ', 'ċ', 'ć', 'ç', 'č', 'ĉ']),
  ('d', ['b', 'ԁ', 'ժ', 'ɗ', 'ď', 'đ', 'ḋ', 'ḍ', 'ḏ', 'ḑ', 'ḓ']),
  ('e', ['é', 'è', 'ê', 'ë', 'ē', 'ĕ', 'ě', 'ė', 'ẹ', 'ę', 'ȩ', 'ҽ', 'ӗ', 'е']),
  ('f', ['ϝ', 'ƒ', 'ḟ']),
  ('g', ['q', 'ɢ', 'ɡ', 'ġ', 'ğ', 'ց', 'ǵ', 'ģ']),
  ('h', ['һ', 'Һ', 'ḣ', 'ḥ', 'ḧ', 'ḩ', 'ḫ', 'ħ']),
  ('i', ['1', 'l', 'í', 'ì', 'ï', 'î', 'ı', 'ɩ', 'ι', 'ꙇ', 'ǐ', 'ĭ', 'ɪ']),
  ('j', ['ј', 'ʝ', 'ϳ', 'ɉ', 'ĵ']),
  ('k', ['κ', 'ʞ', 'ќ', 'ķ', 'ҝ', 'ḱ', 'ḳ', 'ḵ']),
  ('l', ['1', 'i', 'ʟ', 'Ɩ', 'ι', 'ӏ', 'ĺ', 'ļ', 'ľ', 'ḷ', 'ḹ', 'ḻ', 'ḽ']),
  ('m', ['n', 'ṁ', 'ṃ', 'ᴍ', 'м', 'ɱ']),
  ('n', ['m', 'r', 'ń', 'ṅ', 'ņ', 'ṇ', 'ṉ', 'ñ', 'ŋ', 'ɲ', 'ƞ', 'ӈ', 'ȵ']),
  ('o', ['0', 'Ο', 'ο', 'О', 'о', 'Օ', 'ȯ', 'ọ', 'ỏ', 'ơ', 'ó', 'ö', 'ӧ']),
  ('p', ['ρ', 'р', 'ƿ', 'Ϸ', 'ṗ', 'ṕ']),
  ('q', ['g', 'զ', 'ԛ', 'գ', 'ʠ']),
  ('r', ['ʀ', 'Ʀ', 'ɼ', 'ɽ', 'ŕ', 'ŗ', 'ř', 'ṙ', 'ṛ', 'ṝ', 'ṟ']),
  ('s', ['Ѕ', 'ʂ', 'ś', 'ṣ', 'ṡ', 'ş', 'š', 'ș']),
  ('t', ['τ', 'т', 'ţ', 'ť', 'ṫ', 'ṭ', 'ț', 'ṱ', 'ṯ']),
  ('u', ['υ', 'ս', 'ʋ', 'ū', 'ú', 'ù', 'ü', 'û', 'ũ', 'ų', 'ụ', 'ủ', 'ư', 'ǔ', 'ŭ']),
  ('v', ['ν', 'ѵ', 'ṿ', 'ʋ', 'ᶌ', 'ṽ', 'ⱱ']),
  ('w', ['ʍ', 'ẁ', 'ẃ', 'ẅ', 'ẇ', 'ẉ', 'ŵ', 'ⱳ']),
  ('x', ['х', 'ҳ', 'ẋ', 'ẍ']),
  ('y', ['ʏ', 'у', 'ý', 'ÿ', 'ŷ', 'ẏ', 'ỳ', 'ỵ', 'ỷ', 'ỹ']),
  ('z', ['ʐ', 'ż', 'ź', 'ʐ', 'ż', 'ź', 'ž', 'ẓ', 'ẕ', 'ⱬ'])]

/-- Class attribute `KEYBOARD_ADJACENCY` (src/dnsalt.py lines 82-109). -/
def KEYBOARD_ADJACENCY : List (Char × List Char) := [
  ('q', ['w', 'a']),
  ('w', ['q', 'e', 's']),
  ('e', ['w', 'r', 'd']),
  ('r', ['e', 't', 'f']),
  ('t', ['r', 'y', 'g']),
  ('y', ['t', 'u', 'h']),
  ('u', ['y', 'i', 'j']),
  ('i', ['u', 'o', 'k']),
  ('o', ['i', 'p', 'l']),
  ('p', ['o', 'l']),
  ('a', ['q', 's', 'z']),
  ('s', ['w', 'a', 'd', 'x']),
  ('d', ['e', 's', 'f', 'c']),
  ('f', ['r', 'd', 'g', 'v']),
  ('g', ['t', 'f', 'h', 'b']),
  ('h', ['y', 'g', 'j', 'n']),
  ('j', ['u', 'h', 'k', 'm']),
  ('k', ['i', 'j', 'l']),
  ('l', ['o', 'k', 'p']),
  ('z', ['a', 'x']),
  ('x', ['z', 's', 'c']),
  ('c', ['x', 'd', 'v']),
  ('v', ['c', 'f', 'b']),
  ('b', ['v', 'g', 'n']),
  ('n', ['b', 'h', 'm']),
  ('m', ['n', 'j'])]

/-- Class attribute `VOWELS` (src/dnsalt.py line 111). -/
def VOWELS : List Char := ['a', 'e', 'i', 'o', 'u']

/-- Class attribute `COMMON_TLDS` (src/dnsalt.py lines 114-118). -/
def COMMON_TLDS : List (List Char) :=
  ["com".toList, "net".toList, "org".toList, "co".toList, "io".toList,
   "ai".toList, "biz".toList, "info".toList, "edu".toList, "gov".toList,
   "uk".toList, "de".toList, "fr".toList, "cn".toList, "ru".toList,
   "br".toList, "in".toList, "au".toList, "ca".toList, "jp".toList,
   "xyz".toList, "shop".toList, "pro".toList]

/-- Class attribute `COMMON_SUBDOMAINS` (src/dnsalt.py lines 121-125). -/
def COMMON_SUBDOMAINS : List (List Char) :=
  ["www".toList, "mail".toList, "webmail".toList, "ftp".toList,
   "admin".toList, "portal".toList, "secure".toList, "login".toList,
   "signin".toList, "account".toList, "shop".toList, "store".toList,
   "support".toList, "help".toList, "blog".toList, "news".toList,
   "api".toList, "dev".toList, "staging".toList, "test".toList]

/-- Method `homograph_attack` (src/dnsalt.py lines 127-151): single
substitutions via `enumerate`, then substitutions of identical adjacent
pairs, whose body indexes `name[i]` and `name[i+1]` directly. -/
def homograph_attack (name tld : List Char) : Option (List (List Char)) := do
  let singles := name.enum.flatMap (fun p =>
    match List.lookup p.2.toLower HOMOGLYPHS with
    | some glyphs => glyphs.map (fun g =>
        dotted (name.take p.1 ++ [g] ++ name.drop (p.1 + 1)) tld)
    | none => [])
  let doubles ← (List.range (name.length - 1)).mapM (fun i => do
    let a ← name[i]?
    let b ← name[i+1]?
    pure (if a = b then
      match List.lookup a.toLower HOMOGLYPHS with
      | some glyphs => glyphs.map (fun g =>
          dotted (name.take i ++ [g, g] ++ name.drop (i + 2)) tld)
      | none => []
    else []))
  pure (singles ++ doubles.flatten)

/-- Method `bitsquat_attack` (src/dnsalt.py lines 153-177): for each
character, XOR-flip each of its 8 low bits; keep printable-ASCII results in
`[33, 126]` that are alphanumeric or a hyphen.  `Char.isAlphanum` agrees
with Python `str.isalnum` on the ASCII range already enforced by the
preceding bound check. -/
def bitsquat_attack (name tld : List Char) : List (List Char) :=
  name.enum.flatMap (fun p =>
    (List.range 8).filterMap (fun bit =>
      let flipped_val := p.2.toNat ^^^ (1 <<< bit)
      if 33 ≤ flipped_val ∧ flipped_val ≤ 126 then
        let flipped_char := Char.ofNat flipped_val
        if flipped_char.isAlphanum ∨ flipped_char = '-' then
          some (dotted (name.take p.1 ++ [flipped_char] ++ name.drop (p.1 + 1)) tld)
        else none
      else none))

/-- First loop of `hyphenation_attack` (src/dnsalt.py lines 188-190): a
hyphen at every inter-character boundary `i ∈ range(1, len(name))`. -/
def hyphFirstPass (name tld : List Char) : List (List Char) :=
  (List.range' 1 (name.length - 1)).map (fun i =>
    dotted (name.take i ++ ['-'] ++ name.drop i) tld)

/-- Method `hyphenation_attack` (src/dnsalt.py lines 179-203): all-boundary
hyphens, then hyphens at vowel/consonant classification changes, appending
only candidates not already in `results`; the second loop indexes
`name[i-1]` and `name[i]` directly. -/
def hyphenation_attack (name tld : List Char) : Option (List (List Char)) := do
  let results := hyphFirstPass name tld
  (List.range' 1 (name.length - 1)).foldlM (fun acc i => do
    let p ← name[i-1]?
    let c ← name[i]?
    let prev_is_vowel : Bool := decide (p.toLower ∈ VOWELS)
    let curr_is_vowel : Bool := decide (c.toLower ∈ VOWELS)
    pure (if prev_is_vowel ≠ curr_is_vowel then
      let cand := dotted (name.take i ++ ['-'] ++ name.drop i) tld
      if cand ∉ acc then acc ++ [cand] else acc
    else acc)) results

/-- Method `omission_attack` (src/dnsalt.py lines 205-218): drop each
position; skip a removal that empties the name. -/
def omission_attack (name tld : List Char) : List (List Char) :=
  (List.range name.length).filterMap (fun i =>
    let new_name := name.take i ++ name.drop (i + 1)
    if new_name ≠ [] then some (dotted new_name tld) else none)

/-- Method `repetition_attack` (src/dnsalt.py lines 220-239): duplicate each
character in place, then triple already-doubled characters; both loops index
`name[i]` (and the second `name[i+1]`) directly. -/
def repetition_attack (name tld : List Char) : Option (List (List Char)) := do
  let firsts ← (List.range name.length).mapM (fun i => do
    let a ← name[i]?
    pure (dotted (name.take (i + 1) ++ [a] ++ name.drop (i + 1)) tld))
  let seconds ← (List.range (name.length - 1)).mapM (fun i => do
    let a ← name[i]?
    let b ← name[i+1]?
    pure (if a = b then
      [dotted (name.take (i + 2) ++ [a] ++ name.drop (i + 2)) tld]
    else []))
  pure (firsts ++ seconds.flatten)

/-- Method `replacement_attack` (src/dnsalt.py lines 241-260): keyboard
adjacency substitution with the replacement upper-cased when the original
character is upper case. -/
def replacement_attack (name tld : List Char) : List (List Char) :=
  name.enum.flatMap (fun p =>
    match List.lookup p.2.toLower KEYBOARD_ADJACENCY with
    | some adj => adj.map (fun r =>
        let r := if p.2.isUpper then r.toUpper else r
        dotted (name.take p.1 ++ [r] ++ name.drop (p.1 + 1)) tld)
    | none => [])

/-- Method `subdomain_attack` (src/dnsalt.py lines 262-278): five variants
per common subdomain label. -/
def subdomain_attack (name tld : List Char) : List (List Char) :=
  COMMON_SUBDOMAINS.flatMap (fun sub =>
    [sub ++ ['.'] ++ name ++ ['.'] ++ tld,
     dotted (sub ++ ['-'] ++ name) tld,
     dotted (name ++ ['-'] ++ sub) tld,
     dotted (sub ++ name) tld,
     dotted (name ++ sub) tld])

/-- Method `transposition_attack` (src/dnsalt.py lines 280-295): swap each
adjacent pair; the body indexes `name[i+1]` and `name[i]` directly. -/
def transposition_attack (name tld : List Char) : Option (List (List Char)) :=
  (List.range (name.length - 1)).mapM (fun i => do
    let b ← name[i+1]?
    let a ← name[i]?
    pure (dotted (name.take i ++ [b] ++ [a] ++ name.drop (i + 2)) tld))

/-- Method `vowel_swap_attack` (src/dnsalt.py lines 297-316): substitute
each vowel by every other vowel, case-matched. -/
def vowel_swap_attack (name tld : List Char) : List (List Char) :=
  name.enum.flatMap (fun p =>
    if p.2.toLower ∈ VOWELS then
      VOWELS.filterMap (fun v =>
        if v ≠ p.2.toLower then
          let v := if p.2.isUpper then v.toUpper else v
          some (dotted (name.take p.1 ++ [v] ++ name.drop (p.1 + 1)) tld)
        else none)
    else [])

/-- The character pool of `addition_attack` (src/dnsalt.py line 325). -/
def additionChars : List Char := "abcdefghijklmnopqrstuvwxyz0123456789".toList

/-- Method `addition_attack` (src/dnsalt.py lines 318-333): insert each of
the 36 characters at each of the `len(name) + 1` insertion points. -/
def addition_attack (name tld : List Char) : List (List Char) :=
  (List.range (name.length + 1)).flatMap (fun i =>
    additionChars.map (fun c => dotted (name.take i ++ [c] ++ name.drop i) tld))

/-- Method `doppelganger_attack` (src/dnsalt.py lines 335-347): the name
with each common TLD other than the original one. -/
def doppelganger_attack (name tld : List Char) : List (List Char) :=
  COMMON_TLDS.filterMap (fun t =>
    if t ≠ tld then some (name ++ ['.'] ++ t) else none)

/-- Result of `generate_all`: the dict from attack-kind tag to candidate
list (src/dnsalt.py lines 355-368), one field per fixed key. -/
structure AttackResultSet where
  original : List (List Char)
  homograph : List (List Char)
  bitsquat : List (List Char)
  hyphenation : List (List Char)
  omission : List (List Char)
  repetition : List (List Char)
  replacement : List (List Char)
  subdomain : List (List Char)
  transposition : List (List Char)
  vowel_swap : List (List Char)
  addition : List (List Char)
  doppelganger : List (List Char)
deriving Repr, DecidableEq

/-- Method `generate_all` (src/dnsalt.py lines 349-368): run all eleven
algorithms plus the `original` entry. -/
def generate_all (s : dnsalt) : Option AttackResultSet := do
  let hg ← homograph_attack s.name s.tld
  let hy ← hyphenation_attack s.name s.tld
  let rp ← repetition_attack s.name s.tld
  let tr ← transposition_attack s.name s.tld
  pure ⟨[s.original_domain], hg, bitsquat_attack s.name s.tld, hy,
    omission_attack s.name s.tld, rp, replacement_attack s.name s.tld,
    subdomain_attack s.name s.tld, tr, vowel_swap_attack s.name s.tld,
    addition_attack s.name s.tld, doppelganger_attack s.name s.tld⟩

lemma optionBind_isSome {α β : Type} (o : Option α) (f : α → Option β)
    (ho : o.isSome) (hf : ∀ a, (f a).isSome) : (o >>= f).isSome := by
  obtain ⟨a, ha⟩ := Option.isSome_iff_exists.mp ho
  rw [ha]
  exact hf a

lemma mapM_option_isSome {α β : Type} (f : α → Option β) (l : List α)
    (h : ∀ a ∈ l, (f a).isSome) : (l.mapM f).isSome := by
  induction l with
  | nil => rfl
  | cons a l ih =>
    rw [List.mapM_cons]
    apply optionBind_isSome _ _ (h a (List.mem_cons_self a l))
    intro b
    apply optionBind_isSome _ _ (ih fun x hx => h x (List.mem_cons_of_mem _ hx))
    intro bs
    rfl

lemma mapM_option_eq_map {α β : Type} (f : α → Option β) (g : α → β)
    (l : List α) (h : ∀ a ∈ l, f a = some (g a)) :
    l.mapM f = some (l.map g) := by
  induction l with
  | nil => rfl
  | cons a l ih =>
    rw [List.mapM_cons, h a (List.mem_cons_self a l),
      ih fun x hx => h x (List.mem_cons_of_mem _ hx)]
    rfl

lemma foldlM_option_const {α β : Type} (f : β → α → Option β) (b : β)
    (l : List α) (h : ∀ a ∈ l, f b a = some b) : l.foldlM f b = some b := by
  induction l with
  | nil => rfl
  | cons a l ih =>
    rw [List.foldlM_cons, h a (List.mem_cons_self a l)]
    simpa using ih fun x hx => h x (List.mem_cons_of_mem _ hx)

lemma transposition_attack_eq (name tld : List Char) :
    transposition_attack name tld =
      some ((List.range (name.length - 1)).map (fun i =>
        dotted (name.take i ++ [name.getD (i + 1) ' '] ++ [name.getD i ' '] ++
          name.drop (i + 2)) tld)) := by
  apply mapM_option_eq_map
  intro i hi
  rw [List.mem_range] at hi
  have h1 : i < name.length := by omega
  have h2 : i + 1 < name.length := by omega
  rw [List.getElem?_eq_getElem h2, List.getElem?_eq_getElem h1,
    List.getD_eq_getElem name ' ' h2, List.getD_eq_getElem name ' ' h1]
  rfl

lemma hyphenation_attack_eq (name tld : List Char) :
    hyphenation_attack name tld = some (hyphFirstPass name tld) := by
  unfold hyphenation_attack
  apply foldlM_option_const
  intro i hi
  rw [List.mem_range'_1] at hi
  have h1 : i - 1 < name.length := by omega
  have h2 : i < name.length := by omega
  rw [List.getElem?_eq_getElem h1, List.getElem?_eq_getElem h2]
  have hmem : dotted (name.take i ++ ['-'] ++ name.drop i) tld ∈
      hyphFirstPass name tld :=
    List.mem_map_of_mem _ (List.mem_range'_1.mpr hi)
  simp only [Option.bind_eq_bind, Option.some_bind]
  by_cases hcond : (decide (name[i - 1].toLower ∈ VOWELS) ≠
      decide (name[i].toLower ∈ VOWELS))
  · rw [if_pos hcond, if_neg (not_not_intro hmem)]
    rfl
  · rw [if_neg hcond]
    rfl

lemma homograph_attack_isSome (name tld : List Char) :
    (homograph_attack name tld).isSome := by
  unfold homograph_attack
  apply optionBind_isSome
  · apply mapM_option_isSome
    intro i hi
    rw [List.mem_range] at hi
    have h1 : i < name.length := by omega
    have h2 : i + 1 < name.length := by omega
    rw [List.getElem?_eq_getElem h1, List.getElem?_eq_getElem h2]
    rfl
  · intro a
    rfl

lemma repetition_attack_isSome (name tld : List Char) :
    (repetition_attack name tld).isSome := by
  unfold repetition_attack
  apply optionBind_isSome
  · apply mapM_option_isSome
    intro i hi
    rw [List.mem_range] at hi
    rw [List.getElem?_eq_getElem hi]
    rfl
  · intro a
    apply optionBind_isSome
    · apply mapM_option_isSome
      intro i hi
      rw [List.mem_range] at hi
      have h1 : i < name.length := by omega
      have h2 : i + 1 < name.length := by omega
      rw [List.getElem?_eq_getElem h1, List.getElem?_eq_getElem h2]
      rfl
    · intro b
      rfl

/-- C9: `generate_all` — which runs all eleven generation algorithms on the
decomposed domain — returns a result for every state, in particular for a
state whose `name` is empty (an input that was only a TLD): the four
algorithms that index into `name` directly never access an out-of-range
position, and the remaining seven are total by construction. -/
theorem generate_all_total (s : dnsalt) : (generate_all s).isSome := by
  unfold generate_all
  apply optionBind_isSome _ _ (homograph_attack_isSome s.name s.tld)
  intro hg
  apply optionBind_isSome
  · rw [hyphenation_attack_eq]
    rfl
  intro hy
  apply optionBind_isSome _ _ (repetition_attack_isSome s.name s.tld)
  intro rp
  apply optionBind_isSome
  · rw [transposition_attack_eq]
    rfl
  intro tr
  rfl

/-- C10: the vowel/consonant second pass of `hyphenation_attack` contributes
nothing — each candidate it considers is the all-boundaries candidate at the
same boundary, already present in `results` from the first pass, so it is
skipped — and the output is the first pass alone: one candidate per boundary
`i ∈ range(1, len(name))`, in boundary order, `len(name) - 1` in total. -/
theorem hyphenation_attack_second_pass_noop (name tld : List Char) :
    hyphenation_attack name tld = some (hyphFirstPass name tld) ∧
    (hyphFirstPass name tld).length = name.length - 1 :=
  ⟨hyphenation_attack_eq name tld, by simp [hyphFirstPass]⟩

/-- C7: `transposition_attack` yields exactly `len(name) - 1` candidates,
one per adjacent pair swapped, and each candidate is a mutated name followed
by `"." ++ tld` where the mutated name is a permutation of the original
name's multiset of characters. -/
theorem transposition_attack_spec (name tld : List Char) :
    ∃ l, transposition_attack name tld = some l ∧
      l.length = name.length - 1 ∧
      ∀ cand ∈ l, ∃ nm, cand = dotted nm tld ∧ nm.Perm name := by
  refine ⟨_, transposition_attack_eq name tld, by simp, ?_⟩
  intro cand hcand
  rw [List.mem_map] at hcand
  obtain ⟨i, hi, heq⟩ := hcand
  rw [List.mem_range] at hi
  have h1 : i < name.length := by omega
  have h2 : i + 1 < name.length := by omega
  refine ⟨name.take i ++ [name.getD (i + 1) ' '] ++ [name.getD i ' '] ++
    name.drop (i + 2), ?_, ?_⟩
  · rw [← heq]
  · rw [List.getD_eq_getElem name ' ' h2, List.getD_eq_getElem name ' ' h1]
    have hname : name = name.take i ++ (name[i] :: name[i + 1] :: name.drop (i + 2)) := by
      conv_lhs => rw [← List.take_append_drop i name]
      rw [List.drop_eq_getElem_cons h1, List.drop_eq_getElem_cons h2]
    conv_rhs => rw [hname]
    have hswap : (name[i + 1] :: name[i] :: name.drop (i + 2)).Perm
        (name[i] :: name[i + 1] :: name.drop (i + 2)) :=
      List.Perm.swap _ _ _
    simpa using (List.Perm.append_left (name.take i) hswap)

/-- Witness for C7 at the concrete input `"abc"` with suffix `"com"`. -/
theorem transposition_attack_spec_witness :
    ∃ l, transposition_attack ['a', 'b', 'c'] ['c', 'o', 'm'] = some l ∧
      l.length = (['a', 'b', 'c'] : List Char).length - 1 ∧
      ∀ cand ∈ l, ∃ nm, cand = dotted nm ['c', 'o', 'm'] ∧
        nm.Perm ['a', 'b', 'c'] :=
  transposition_attack_spec ['a', 'b', 'c'] ['c', 'o', 'm']

/-- C6: `addition_attack` on a name of length `n` yields exactly
`(n + 1) * 36` candidates: each of the 36 characters `a`-`z`, `0`-`9`
inserted at each of the `n + 1` insertion points (before the first and after
the last character included), with `"." ++ tld` appended, and nothing else. -/
theorem addition_attack_spec (name tld : List Char) :
    (addition_attack name tld).length = (name.length + 1) * 36 ∧
    (∀ i ≤ name.length, ∀ c ∈ additionChars,
      dotted (name.take i ++ [c] ++ name.drop i) tld ∈
        addition_attack name tld) ∧
    (∀ cand ∈ addition_attack name tld, ∃ i ≤ name.length,
      ∃ c ∈ additionChars,
        cand = dotted (name.take i ++ [c] ++ name.drop i) tld) := by
  refine ⟨?_, ?_, ?_⟩
  · rw [addition_attack, List.length_flatMap]
    have hconst : List.map (List.length ∘ fun i =>
        additionChars.map (fun c => dotted (name.take i ++ [c] ++ name.drop i) tld))
        (List.range (name.length + 1)) =
        List.map (fun _ => 36) (List.range (name.length + 1)) := by
      apply List.map_congr_left
      intro i _
      rw [Function.comp_apply, List.length_map]
      rfl
    rw [hconst, List.map_const', List.sum_replicate, List.length_range,
      smul_eq_mul]
  · intro i hile c hc
    rw [addition_attack, List.mem_flatMap]
    exact ⟨i, List.mem_range.mpr (by omega), List.mem_map_of_mem _ hc⟩
  · intro cand hcand
    rw [addition_attack, List.mem_flatMap] at hcand
    obtain ⟨i, hi, hmem⟩ := hcand
    rw [List.mem_range] at hi
    rw [List.mem_map] at hmem
    obtain ⟨c, hc, heq⟩ := hmem
    exact ⟨i, by omega, c, hc, heq.symm⟩

/-- Witness for C6: inserting `'a'` at point 0 of the name `"ab"`. -/
theorem addition_attack_spec_witness :
    dotted (List.take 0 ['a', 'b'] ++ ['a'] ++ List.drop 0 ['a', 'b'])
        ['c', 'o', 'm'] ∈ addition_attack ['a', 'b'] ['c', 'o', 'm'] :=
  (addition_attack_spec ['a', 'b'] ['c', 'o', 'm']).2.1 0 (by decide) 'a'
    (by decide)

/-- C8: `doppelganger_attack` keeps the name unchanged — every output is
`name ++ "." ++ t` for a common TLD `t` different from the original — and
never contains `name ++ "." ++ tld`; concretely, on `"example"`/`"com"` it
contains `"example.net"` and not `"example.com"`. -/
theorem doppelganger_attack_spec :
    (∀ name tld : List Char,
      name ++ ['.'] ++ tld ∉ doppelganger_attack name tld) ∧
    (∀ name tld cand, cand ∈ doppelganger_attack name tld →
      ∃ t ∈ COMMON_TLDS, t ≠ tld ∧ cand = name ++ ['.'] ++ t) ∧
    "example.net".toList ∈
      doppelganger_attack "example".toList "com".toList ∧
    "example.com".toList ∉
      doppelganger_attack "example".toList "com".toList := by
  have key : ∀ name tld cand : List Char,
      cand ∈ doppelganger_attack name tld →
      ∃ t ∈ COMMON_TLDS, t ≠ tld ∧ cand = name ++ ['.'] ++ t := by
    intro name tld cand h
    rw [doppelganger_attack, List.mem_filterMap] at h
    obtain ⟨t, ht, heq⟩ := h
    by_cases hne : t ≠ tld
    · rw [if_pos hne] at heq
      cases heq
      exact ⟨t, ht, hne, rfl⟩
    · rw [if_neg hne] at heq
      cases heq
  refine ⟨?_, key, by decide, by decide⟩
  intro name tld hmem
  obtain ⟨t, ht, hne, heq⟩ := key name tld _ hmem
  exact hne (List.append_cancel_left heq).symm

/-- Witness for C8: the original `"example.com"` never appears among the
doppelganger candidates for `"example"`/`"com"`. -/
theorem doppelganger_attack_spec_witness :
    "example".toList ++ ['.'] ++ "com".toList ∉
      doppelganger_attack "example".toList "com".toList :=
  doppelganger_attack_spec.1 "example".toList "com".toList

/-- C5: every candidate emitted by `bitsquat_attack` is the name with exactly
one character replaced — at a position `i` holding a character `ch` — by a
character `c` whose code point is `ord(ch)` with one of its 8 low bits
flipped, lying in the printable ASCII range `[33, 126]` and alphanumeric or
a hyphen; no candidate with a substituted character outside that set is
emitted. -/
theorem bitsquat_attack_sound (name tld cand : List Char)
    (h : cand ∈ bitsquat_attack name tld) :
    ∃ i ch bit c, name[i]? = some ch ∧ bit < 8 ∧
      c.toNat = ch.toNat ^^^ (1 <<< bit) ∧ c ≠ ch ∧
      33 ≤ c.toNat ∧ c.toNat ≤ 126 ∧ (c.isAlphanum ∨ c = '-') ∧
      cand = dotted (name.take i ++ [c] ++ name.drop (i + 1)) tld := by
  rw [bitsquat_attack, List.mem_flatMap] at h
  obtain ⟨p, hp, hmem⟩ := h
  obtain ⟨i, ch⟩ := p
  rw [List.mk_mem_enum_iff_getElem?] at hp
  rw [List.mem_filterMap] at hmem
  obtain ⟨bit, hbit, heq⟩ := hmem
  rw [List.mem_range] at hbit
  dsimp only at heq
  by_cases h1 : 33 ≤ ch.toNat ^^^ (1 <<< bit) ∧ ch.toNat ^^^ (1 <<< bit) ≤ 126
  · rw [if_pos h1] at heq
    by_cases h2 : (Char.ofNat (ch.toNat ^^^ (1 <<< bit))).isAlphanum = true ∨
        Char.ofNat (ch.toNat ^^^ (1 <<< bit)) = '-'
    · rw [if_pos h2] at heq
      cases heq
      have hv : Nat.isValidChar (ch.toNat ^^^ (1 <<< bit)) :=
        Or.inl (by omega)
      have htn : (Char.ofNat (ch.toNat ^^^ (1 <<< bit))).toNat =
          ch.toNat ^^^ (1 <<< bit) := by
        simp [Char.ofNat, hv]
        rfl
      refine ⟨i, ch, bit, Char.ofNat (ch.toNat ^^^ (1 <<< bit)), hp, hbit,
        htn, ?_, by omega, by omega, h2, rfl⟩
      intro hcontra
      have hx : ch.toNat ^^^ (1 <<< bit) = ch.toNat := by
        rw [← htn, hcontra]
      have h0 : (1 <<< bit) = 0 := by
        have := congrArg (fun z => ch.toNat ^^^ z) hx
        simpa [Nat.xor_cancel_left, Nat.xor_self] using this
      rw [Nat.one_shiftLeft] at h0
      exact absurd h0 (Nat.pos_iff_ne_zero.mp (Nat.two_pow_pos bit))
    · rw [if_neg h2] at heq
      cases heq
  · rw [if_neg h1] at heq
    cases heq

/-- Witness for C5: the candidate `"c.com"` produced from the name `"a"` by
flipping bit 1 of `ord('a') = 97`. -/
theorem bitsquat_attack_sound_witness :
    ∃ i ch bit c, (['a'] : List Char)[i]? = some ch ∧ bit < 8 ∧
      c.toNat = ch.toNat ^^^ (1 <<< bit) ∧ c ≠ ch ∧
      33 ≤ c.toNat ∧ c.toNat ≤ 126 ∧ (c.isAlphanum ∨ c = '-') ∧
      ['c', '.', 'c', 'o', 'm'] =
        dotted (List.take i ['a'] ++ [c] ++ List.drop (i + 1) ['a'])
          ['c', 'o', 'm'] :=
  bitsquat_attack_sound ['a'] ['c', 'o', 'm'] ['c', '.', 'c', 'o', 'm']
    (by decide)
